import Mathlib

/-!
Verification of `src/python-scripts/merge_google_takeout.py` against its
natural-language specification.

The script orchestrates: environment validation, then for each
`takeout-*.tgz` archive (lexicographically sorted): extraction into a
scratch ("temp") directory, a dry-run rsync preview plus a confirmation
prompt before the first real merge, a real rsync merge into the
destination, and scratch cleanup.

We shallowly embed the script as a deterministic state-transition model
over an abstract filesystem.  Directories are lists of file records
(path, size, mtime); the external rsync tool's per-file transfer
decision under the exact flags the script passes (`-avu`, no
`--size-only` / `--checksum` / `--ignore-times`) is embedded as
`rsyncTransfers`, following rsync's documented `--update` plus
quick-check semantics.  All other behaviour (control flow, log-file
writes, cleanup, exit codes) is translated directly from the Python
source; external outcomes (extraction success, rsync return codes, the
user's answer to the prompt) are supplied by an oracle.
-/

/-- A file in a directory tree: destination-relative path, size in
bytes, and modification time (abstract clock ticks). -/
structure FileRec where
  path : String
  size : Nat
  mtime : Nat
deriving DecidableEq, Repr

/-- A directory tree, as the list of files it contains. -/
abbrev Dir := List FileRec

/-- A scratch ("temp") directory: `none` means the path does not exist,
`some d` means it exists with contents `d`. -/
abbrev Scratch := Option Dir

/-- Look up the file at path `p` in directory `d`. -/
def findFile (d : Dir) (p : String) : Option FileRec :=
  d.find? (fun f => f.path == p)

/-- Write file `f` into directory `d`: replace the entry at the same
path, or append `f` if the path is absent. -/
def upsert (d : Dir) (f : FileRec) : Dir :=
  if d.any (fun g => g.path == f.path) then
    d.map (fun g => if g.path == f.path then f else g)
  else
    d ++ [f]

/-- Extract the files `files` into a directory with prior contents
`base`, overwriting entries at the same path (tar extraction
semantics). -/
def mergeInto (base : Dir) (files : Dir) : Dir :=
  files.foldl upsert base

/-- Per-file transfer decision of `rsync -avu` (the exact flag set built
in `DirectoryMerger._run_rsync`; `--progress --stats --itemize-changes`
do not affect it), for a source file `src` whose destination entry is
`destEntry`.  This embeds the external tool's documented semantics:
`-u`/`--update` skips any file whose destination copy has a strictly
newer mtime; at equal mtimes the file is transferred iff the sizes
differ; otherwise (source strictly newer) the default quick-check fires
because the mtimes differ, so the file is transferred. -/
def rsyncTransfers (destEntry : Option FileRec) (src : FileRec) : Bool :=
  match destEntry with
  | none => true
  | some d =>
    if src.mtime > d.mtime then true
    else if src.mtime = d.mtime then decide (src.size ≠ d.size)
    else false

/-- The spec's stated comparison rule, verbatim ("the file is copied iff
`S2 ≠ S1` or `T2` is newer than `T1`"), written down only to be compared
with `rsyncTransfers`. -/
def specCopyRule (destEntry : Option FileRec) (src : FileRec) : Bool :=
  match destEntry with
  | none => true
  | some d => decide (src.size ≠ d.size) || decide (src.mtime > d.mtime)

/-- Apply one real (non-dry-run) rsync invocation: every scratch file
whose per-file decision fires is copied into the destination with its
size and mtime preserved (`-a` archive mode). -/
def applyRsync (scratch : Dir) (dest : Dir) : Dir :=
  scratch.foldl
    (fun acc src =>
      if rsyncTransfers (findFile acc src.path) src then upsert acc src else acc)
    dest

/-- Tag identifying one rsync invocation in a log file: the index of the
archive being processed and whether the invocation was a dry run. -/
structure RsyncTag where
  idx : Nat
  dry : Bool
deriving DecidableEq, Repr

/-- The log-file system: an association list from file name to the
rsync outputs the file currently holds. -/
abbrev LogFS := List (String × List RsyncTag)

/-- The effect of Python's `open(path, "w")` followed by one write:
truncate the file (or create it) and write `content`. -/
def writeTrunc : LogFS → String → List RsyncTag → LogFS
  | [], name, content => [(name, content)]
  | (n, c) :: t, name, content =>
    if n = name then (name, content) :: t
    else (n, c) :: writeTrunc t name content

/-- Read a log file's contents, `none` if the file was never written. -/
def readLog (fs : LogFS) (name : String) : Option (List RsyncTag) :=
  (fs.find? (fun p => p.1 == name)).map Prod.snd

/-- Python's `Path.with_suffix` on a bare file name that does not start
with a dot (the run-log names are `takeout-merge-<timestamp>.log`): drop
the final dot-suffix when one exists and append the new suffix. -/
def withSuffixPy (name suf : String) : String :=
  let cs := name.data
  let stem :=
    if cs.contains '.' then ((cs.reverse.dropWhile (fun c => c != '.')).drop 1).reverse
    else cs
  ⟨stem ++ suf.data⟩

/-- Observable events of one run, in order of occurrence.  The two
extraction events record the scratch state seen immediately before
extraction began, i.e. before `mkdir(parents=True, exist_ok=True)`. -/
inductive Event where
  | extracted (i : Nat) (name : String) (pre : Scratch)
  | extractFailed (i : Nat) (name : String) (pre : Scratch)
  | dryRun (i : Nat) (rc : Nat)
  | prompted (yes : Bool)
  | cancelLogged
  | merged (i : Nat) (rc : Nat)
  | cleaned (i : Nat)
deriving DecidableEq, Repr

/-- External outcomes the script cannot determine itself: per-archive
extraction results and extracted contents, the rsync exit statuses, and
the user's answer to the confirmation prompt.  Archive-indexed fields
are indexed by position in the sorted archive list. -/
structure Oracle where
  extractOk : Nat → Bool
  archiveFiles : Nat → Dir
  leftoverFiles : Nat → Dir
  dryRunRC : Nat
  userYes : Bool
  mergeRC : Nat → Nat

/-- Mutable state of one run: the scratch directory, the destination
tree, the log files, and the trace of events so far. -/
structure RunState where
  scratch : Scratch
  dest : Dir
  logs : LogFS
  trace : List Event
deriving DecidableEq, Repr

/-- What `main` observes: the final state and the process exit status
(0 when `TakeoutMerger.run` returned normally, 1 when an exception
propagated to the handlers in `main`). -/
structure RunResult where
  state : RunState
  exit : Nat
deriving DecidableEq, Repr

/-- Model of `TakeoutExtractor.extract` for archive `i` named `a`:
`mkdir(parents=True, exist_ok=True)` keeps any existing scratch
contents; on success every entry of the archive has been extracted over
them; on failure (`Oracle.extractOk i = false`) the entries written
before the error (`Oracle.leftoverFiles i`) are left in place and the
exception propagates to the caller. -/
def extractStep (o : Oracle) (i : Nat) (a : String) (st : RunState) : RunState :=
  if o.extractOk i then
    { st with scratch := some (mergeInto (st.scratch.getD []) (o.archiveFiles i)),
              trace := st.trace ++ [Event.extracted i a st.scratch] }
  else
    { st with scratch := some (mergeInto (st.scratch.getD []) (o.leftoverFiles i)),
              trace := st.trace ++ [Event.extractFailed i a st.scratch] }

/-- Model of `DirectoryMerger._run_rsync(dry_run=True)`: run rsync with
`--dry-run` (no scratch or destination mutation), then truncate-and-write
its raw output to the preview log file — the run log path with its
suffix replaced by ".dryrun.log". -/
def dryRunStep (o : Oracle) (logFile : String) (i : Nat) (st : RunState) : RunState :=
  { st with logs := writeTrunc st.logs (withSuffixPy logFile ".dryrun.log") [⟨i, true⟩],
            trace := st.trace ++ [Event.dryRun i o.dryRunRC] }

/-- Model of `DirectoryMerger.preview_merge`: dry run; when rsync failed the
method returns `False` without prompting; otherwise `input()` is
evaluated and the method returns whether the stripped, lowercased
answer equals "y". -/
def previewStep (o : Oracle) (logFile : String) (i : Nat) (st : RunState) : RunState × Bool :=
  let st1 := dryRunStep o logFile i st
  if o.dryRunRC ≠ 0 then (st1, false)
  else ({ st1 with trace := st1.trace ++ [Event.prompted o.userYes] }, o.userYes)

/-- Model of `DirectoryMerger.merge` with its inner
`_run_rsync(dry_run=False)`: the real rsync runs (on success it applies
the per-file transfers to the destination; a failing rsync's partial
destination effect is not relevant to any claim and is modelled as no
change), its raw output is truncate-written to the run log file, and
`merge` raises `RuntimeError` when the exit status is non-zero
(modelled at the caller via `Oracle.mergeRC`). -/
def mergeStep (o : Oracle) (logFile : String) (i : Nat) (st : RunState) : RunState :=
  { st with dest := if o.mergeRC i = 0 then applyRsync (st.scratch.getD []) st.dest else st.dest,
            logs := writeTrunc st.logs logFile [⟨i, false⟩],
            trace := st.trace ++ [Event.merged i (o.mergeRC i)] }

/-- Model of `TakeoutExtractor.cleanup`: `shutil.rmtree` when the scratch path
exists; silently does nothing when it is already absent. -/
def cleanupStep (i : Nat) (st : RunState) : RunState :=
  match st.scratch with
  | none => st
  | some _ => { st with scratch := none, trace := st.trace ++ [Event.cleaned i] }

/-- The archive loop of `TakeoutMerger.run`, over the remaining
`(index, name)` pairs from `enumerate(tgz_files)`.  The preview and
confirmation happen only at index 0.  A declined confirmation (or a
failed dry run) logs "Merge cancelled by user", cleans the scratch
directory and returns, and the process exits 0.  An extraction or merge
exception propagates past the cleanup to `main`, which exits 1. -/
def runFrom (o : Oracle) (logFile : String) : List (Nat × String) → RunState → RunResult
  | [], st => ⟨st, 0⟩
  | (i, a) :: rest, st =>
    let st1 := extractStep o i a st
    if o.extractOk i then
      if i = 0 then
        let p := previewStep o logFile i st1
        if p.2 then
          let st3 := mergeStep o logFile i p.1
          if o.mergeRC i = 0 then runFrom o logFile rest (cleanupStep i st3)
          else ⟨st3, 1⟩
        else
          ⟨cleanupStep i { p.1 with trace := p.1.trace ++ [Event.cancelLogged] }, 0⟩
      else
        let st3 := mergeStep o logFile i st1
        if o.mergeRC i = 0 then runFrom o logFile rest (cleanupStep i st3)
        else ⟨st3, 1⟩
    else ⟨st1, 1⟩

/-- Does the character list `l` start with `front`? -/
def listStartsWith : List Char → List Char → Bool
  | _, [] => true
  | [], _ :: _ => false
  | a :: s, b :: p => a == b && listStartsWith s p

/-- Glob matching against the pattern "takeout-*.tgz".  For this
pattern matching is equivalent to carrying the literal front part
"takeout-" and the literal extension ".tgz"; the two regions cannot
overlap in a name that has both. -/
def matchesTakeoutGlob (name : String) : Bool :=
  listStartsWith name.data "takeout-".data &&
    listStartsWith name.data.reverse ".tgz".data.reverse

/-- Lexicographic comparison of character lists, mirroring how Python
compares strings (code-point order). -/
def charListLe : List Char → List Char → Bool
  | [], _ => true
  | _ :: _, [] => false
  | a :: s, b :: t =>
    if a < b then true
    else if b < a then false
    else charListLe s t

/-- Lexicographic comparison of file names. -/
def nameLe (a b : String) : Bool := charListLe a.data b.data

/-- Insert a name into an already-sorted list of names. -/
def insertSorted (x : String) : List String → List String
  | [] => [x]
  | y :: ys => if nameLe x y then x :: y :: ys else y :: insertSorted x ys

/-- Python's `sorted` on the glob matches: all matches live in one
directory, so `Path` order is lexicographic file-name order; insertion
sort is the same stable sort. -/
def sortNames (l : List String) : List String := l.foldr insertSorted []

/-- Model of `ValidationService._find_tgz_files`: the sorted matches of
"takeout-*.tgz" among the source directory's entries.  An empty result
raises `ValidationError`, modelled at the caller. -/
def findTgzFiles (entries : List String) : List String :=
  sortNames (entries.filter matchesTakeoutGlob)

/-- Python's `enumerate`, starting at `n`. -/
def pyEnumFrom (n : Nat) : List String → List (Nat × String)
  | [] => []
  | a :: l => (n, a) :: pyEnumFrom (n + 1) l

/-- Model of `TakeoutMerger.run` wrapped in the exception handling of `main`, for a
source directory listing `entries`, run-log file name `logFile`, and
initial state `st0` (pre-existing scratch path, destination tree, log
files, empty trace).  Of the validation checks only archive discovery
is modelled; its failure (no matching archive) raises
`ValidationError`, which `main` converts to exit status 1 before any
extraction.  Otherwise the loop runs over the enumerated sorted list. -/
def runTakeout (o : Oracle) (logFile : String) (entries : List String)
    (st0 : RunState) : RunResult :=
  let files := findTgzFiles entries
  if files.isEmpty then ⟨st0, 1⟩
  else runFrom o logFile (pyEnumFrom 0 files) st0

/-- Is the event a successful-extraction event? -/
def isExtractEvent : Event → Bool
  | Event.extracted _ _ _ => true
  | _ => false

/-- Is the event a real-merge (rsync apply) invocation event? -/
def isMergeEvent : Event → Bool
  | Event.merged _ _ => true
  | _ => false

/-- Is the event a scratch-cleanup event? -/
def isCleanEvent : Event → Bool
  | Event.cleaned _ => true
  | _ => false

/-- Is the event an evaluation of the confirmation prompt? -/
def isPromptEvent : Event → Bool
  | Event.prompted _ => true
  | _ => false

/-- The events one successful non-first archive cycle appends: extract
(from an absent scratch directory), merge, cleanup. -/
def cycleEvents (o : Oracle) (i : Nat) (a : String) : List Event :=
  [Event.extracted i a none, Event.merged i (o.mergeRC i), Event.cleaned i]

/-- The events a run of successful non-first cycles appends. -/
def cyclesTrace (o : Oracle) : List (Nat × String) → List Event
  | [] => []
  | (i, a) :: rest => cycleEvents o i a ++ cyclesTrace o rest

/-- The destination tree after merging the listed archives, in order,
each from a scratch directory holding exactly that archive's files. -/
def destAfter (o : Oracle) (l : List (Nat × String)) (d : Dir) : Dir :=
  l.foldl (fun acc p => applyRsync (mergeInto [] (o.archiveFiles p.1)) acc) d

/-- The log files after the listed archives' real merges, each
truncate-writing the run log file. -/
def logsAfter (o : Oracle) (logFile : String) (l : List (Nat × String)) (fs : LogFS) : LogFS :=
  l.foldl (fun acc p => writeTrunc acc logFile [⟨p.1, false⟩]) fs

/-- A concrete oracle for witnesses: every archive extracts and merges
cleanly, the dry run succeeds, the user confirms. -/
def okOracle : Oracle where
  extractOk := fun _ => true
  archiveFiles := fun i => [⟨"a.txt", 10 + i, 5 + i⟩]
  leftoverFiles := fun i => [⟨"b.txt", i, i⟩]
  dryRunRC := 0
  userYes := true
  mergeRC := fun _ => 0

/-- A fresh initial state: no scratch directory, empty destination, no
log files written yet, empty trace. -/
def initState : RunState := ⟨none, [], [], []⟩

/-- The amended comparison rule that actually governs `rsync -avu`
(claim C1, amended): a scratch file is copied iff the destination entry
is absent, or the scratch mtime is strictly newer, or the mtimes are
equal and the sizes differ.  In particular a size difference alone does
not suffice when the destination copy is strictly newer. -/
theorem rsyncTransfers_iff (destEntry : Option FileRec) (src : FileRec) :
    rsyncTransfers destEntry src = true ↔
      destEntry = none ∨
        ∃ d, destEntry = some d ∧
          (d.mtime < src.mtime ∨ (src.mtime = d.mtime ∧ src.size ≠ d.size)) := by
  cases destEntry with
  | none => simp [rsyncTransfers]
  | some d =>
    simp only [rsyncTransfers]
    by_cases h1 : src.mtime > d.mtime
    · simp [h1]
    · by_cases h2 : src.mtime = d.mtime
      · simp [h1, h2]
      · simp [h1, h2]

/-- Claim C1, counterexample: with the destination copy strictly newer
(mtime 5 over 3) but of different size (1 vs 2), the spec's stated rule
says the file is copied while `rsync -avu` (because of `-u`) skips it:
a real merge leaves the destination file untouched. -/
theorem sizeDiff_destNewer_not_copied :
    specCopyRule (some ⟨"p", 1, 5⟩) ⟨"p", 2, 3⟩ = true ∧
    rsyncTransfers (some ⟨"p", 1, 5⟩) ⟨"p", 2, 3⟩ = false ∧
    applyRsync [⟨"p", 2, 3⟩] [⟨"p", 1, 5⟩] = [⟨"p", 1, 5⟩] := by
  decide

theorem pyEnumFrom_append (n : Nat) (l1 l2 : List String) :
    pyEnumFrom n (l1 ++ l2) = pyEnumFrom n l1 ++ pyEnumFrom (n + l1.length) l2 := by
  induction l1 generalizing n with
  | nil => simp [pyEnumFrom]
  | cons a l ih =>
    have h : n + 1 + l.length = n + (l.length + 1) := by omega
    simp [pyEnumFrom, ih (n + 1), h]

theorem mem_pyEnumFrom {p : Nat × String} {n : Nat} {l : List String}
    (h : p ∈ pyEnumFrom n l) : n ≤ p.1 ∧ p.1 < n + l.length := by
  induction l generalizing n with
  | nil => simp [pyEnumFrom] at h
  | cons a l ih =>
    simp only [pyEnumFrom, List.mem_cons] at h
    rcases h with h | h
    · subst h; simp
    · have := ih h
      simp only [List.length_cons]
      omega

/-- Characterization of the loop on a block of successful cycles none
of which is the first archive: every cycle extracts into an absent
scratch directory, merges, truncate-writes the run log, and cleans up;
the loop ends normally. -/
theorem runFrom_cycles (o : Oracle) (logFile : String) (l : List (Nat × String))
    (hnz : ∀ p ∈ l, p.1 ≠ 0)
    (hex : ∀ p ∈ l, o.extractOk p.1 = true)
    (hm : ∀ p ∈ l, o.mergeRC p.1 = 0)
    (st : RunState) (hs : st.scratch = none) :
    runFrom o logFile l st =
      ⟨⟨none, destAfter o l st.dest, logsAfter o logFile l st.logs,
        st.trace ++ cyclesTrace o l⟩, 0⟩ := by
  induction l generalizing st with
  | nil =>
    simp only [runFrom, cyclesTrace, destAfter, logsAfter, List.foldl_nil, List.append_nil]
    cases st
    simp_all
  | cons p rest ih =>
    obtain ⟨i, a⟩ := p
    have hi : i ≠ 0 := hnz (i, a) (List.mem_cons_self _ _)
    have hie : o.extractOk i = true := hex (i, a) (List.mem_cons_self _ _)
    have him : o.mergeRC i = 0 := hm (i, a) (List.mem_cons_self _ _)
    simp only [runFrom, extractStep, mergeStep, cleanupStep, hie, hi, him,
      if_true, if_false, hs, Option.getD_some, Option.getD_none, if_pos, ite_true,
      ite_false, reduceIte]
    rw [ih (fun q hq => hnz q (List.mem_cons_of_mem _ hq))
        (fun q hq => hex q (List.mem_cons_of_mem _ hq))
        (fun q hq => hm q (List.mem_cons_of_mem _ hq)) _ rfl]
    simp [destAfter, logsAfter, cyclesTrace, cycleEvents, him]

/-- Claim C4 (confirmed): if the user declines the confirmation prompt
after the first archive's preview, the destination tree is unchanged
(hence its file count), and the first archive's scratch directory is
removed before the run ends. -/
theorem decline_preserves_dest_and_cleans_scratch (o : Oracle) (logFile : String)
    (entries : List String) (st0 : RunState)
    (hne : findTgzFiles entries ≠ [])
    (hex : o.extractOk 0 = true) (hdr : o.dryRunRC = 0) (hno : o.userYes = false) :
    (runTakeout o logFile entries st0).state.dest = st0.dest ∧
    (runTakeout o logFile entries st0).state.scratch = none := by
  obtain ⟨f, fs, hfe⟩ : ∃ f fs, findTgzFiles entries = f :: fs := by
    cases h : findTgzFiles entries with
    | nil => exact absurd h hne
    | cons f fs => exact ⟨f, fs, rfl⟩
  simp [runTakeout, hfe, pyEnumFrom, runFrom, extractStep, previewStep, dryRunStep,
    cleanupStep, hex, hdr, hno]

/-- Witness for C4 at a concrete run. -/
theorem decline_preserves_dest_and_cleans_scratch_witness :
    (runTakeout { okOracle with userYes := false } "takeout-merge-1.log"
      ["takeout-001.tgz"] initState).state.dest = initState.dest ∧
    (runTakeout { okOracle with userYes := false } "takeout-merge-1.log"
      ["takeout-001.tgz"] initState).state.scratch = none :=
  decline_preserves_dest_and_cleans_scratch { okOracle with userYes := false }
    "takeout-merge-1.log" ["takeout-001.tgz"] initState (by decide) rfl rfl rfl

/-- Claim C5, counterexample: at a concrete declined run the process
exit status is 0, refuting the claimed non-zero exit (the cancellation
is nevertheless recorded in the log). -/
theorem decline_exit_status_zero_cex :
    (runTakeout { okOracle with userYes := false } "takeout-merge-2.log"
      ["takeout-001.tgz"] initState).exit = 0 ∧
    Event.cancelLogged ∈ (runTakeout { okOracle with userYes := false } "takeout-merge-2.log"
      ["takeout-001.tgz"] initState).state.trace := by
  decide

/-- Claim C5 (amended): when the user declines the confirmation prompt
the process terminates gracefully with exit status ZERO (not non-zero):
`TakeoutMerger.run` returns normally, so neither `sys.exit(1)` branch of
`main` runs.  The outcome is still distinguishable from outright
failure: the cancellation message is logged and no real merge is ever
invoked, while failures exit with status 1. -/
theorem decline_graceful_exit_zero (o : Oracle) (logFile : String)
    (entries : List String) (st0 : RunState) (ht : st0.trace = [])
    (hne : findTgzFiles entries ≠ [])
    (hex : o.extractOk 0 = true) (hdr : o.dryRunRC = 0) (hno : o.userYes = false) :
    (runTakeout o logFile entries st0).exit = 0 ∧
    Event.cancelLogged ∈ (runTakeout o logFile entries st0).state.trace ∧
    ∀ e ∈ (runTakeout o logFile entries st0).state.trace, isMergeEvent e = false := by
  obtain ⟨f, fs, hfe⟩ : ∃ f fs, findTgzFiles entries = f :: fs := by
    cases h : findTgzFiles entries with
    | nil => exact absurd h hne
    | cons f fs => exact ⟨f, fs, rfl⟩
  simp [runTakeout, hfe, pyEnumFrom, runFrom, extractStep, previewStep, dryRunStep,
    cleanupStep, hex, hdr, hno, ht, isMergeEvent]

/-- Witness for C5's amended theorem at a concrete run. -/
theorem decline_graceful_exit_zero_witness :
    (runTakeout { okOracle with userYes := false } "takeout-merge-3.log"
      ["takeout-001.tgz"] initState).exit = 0 ∧
    Event.cancelLogged ∈ (runTakeout { okOracle with userYes := false } "takeout-merge-3.log"
      ["takeout-001.tgz"] initState).state.trace ∧
    ∀ e ∈ (runTakeout { okOracle with userYes := false } "takeout-merge-3.log"
      ["takeout-001.tgz"] initState).state.trace, isMergeEvent e = false :=
  decline_graceful_exit_zero { okOracle with userYes := false } "takeout-merge-3.log"
    ["takeout-001.tgz"] initState rfl (by decide) rfl rfl rfl

/-- Claim C10 (confirmed): when the dry-run rsync itself exits non-zero,
`preview_merge` returns `False` without prompting and the run follows
the cancellation path: no real merge is invoked, the destination is
untouched, the first archive's scratch directory is cleaned, no
exception propagates, and the process exits with status 0. -/
theorem dryrunFail_behaves_like_cancellation (o : Oracle) (logFile : String)
    (entries : List String) (st0 : RunState) (ht : st0.trace = [])
    (hne : findTgzFiles entries ≠ [])
    (hex : o.extractOk 0 = true) (hdr : o.dryRunRC ≠ 0) :
    (runTakeout o logFile entries st0).exit = 0 ∧
    (runTakeout o logFile entries st0).state.scratch = none ∧
    (runTakeout o logFile entries st0).state.dest = st0.dest ∧
    Event.cancelLogged ∈ (runTakeout o logFile entries st0).state.trace ∧
    ∀ e ∈ (runTakeout o logFile entries st0).state.trace, isMergeEvent e = false := by
  obtain ⟨f, fs, hfe⟩ : ∃ f fs, findTgzFiles entries = f :: fs := by
    cases h : findTgzFiles entries with
    | nil => exact absurd h hne
    | cons f fs => exact ⟨f, fs, rfl⟩
  simp [runTakeout, hfe, pyEnumFrom, runFrom, extractStep, previewStep, dryRunStep,
    cleanupStep, hex, hdr, ht, isMergeEvent]

/-- Witness for C10 at a concrete run. -/
theorem dryrunFail_behaves_like_cancellation_witness :
    (runTakeout { okOracle with dryRunRC := 23 } "takeout-merge-4.log"
      ["takeout-001.tgz"] initState).exit = 0 ∧
    (runTakeout { okOracle with dryRunRC := 23 } "takeout-merge-4.log"
      ["takeout-001.tgz"] initState).state.scratch = none ∧
    (runTakeout { okOracle with dryRunRC := 23 } "takeout-merge-4.log"
      ["takeout-001.tgz"] initState).state.dest = initState.dest ∧
    Event.cancelLogged ∈ (runTakeout { okOracle with dryRunRC := 23 } "takeout-merge-4.log"
      ["takeout-001.tgz"] initState).state.trace ∧
    ∀ e ∈ (runTakeout { okOracle with dryRunRC := 23 } "takeout-merge-4.log"
      ["takeout-001.tgz"] initState).state.trace, isMergeEvent e = false :=
  dryrunFail_behaves_like_cancellation { okOracle with dryRunRC := 23 } "takeout-merge-4.log"
    ["takeout-001.tgz"] initState rfl (by decide) rfl (by decide)

theorem readLog_writeTrunc_eq (fs : LogFS) (name : String) (content : List RsyncTag) :
    readLog (writeTrunc fs name content) name = some content := by
  induction fs with
  | nil => simp [writeTrunc, readLog]
  | cons p t ih =>
    obtain ⟨n, c⟩ := p
    by_cases h : n = name
    · simp [writeTrunc, readLog, h]
    · simp only [writeTrunc, readLog, h, if_false, List.find?]
      have hb : (n == name) = false := by simpa using h
      simpa [readLog, hb] using ih

theorem readLog_writeTrunc_ne (fs : LogFS) (name m : String) (content : List RsyncTag)
    (h : m ≠ name) : readLog (writeTrunc fs name content) m = readLog fs m := by
  induction fs with
  | nil =>
    have hb : (name == m) = false := by simpa using (Ne.symm h)
    simp [writeTrunc, readLog, hb]
  | cons p t ih =>
    obtain ⟨n, c⟩ := p
    by_cases hn : n = name
    · subst hn
      have hb : (n == m) = false := by simpa using (Ne.symm h)
      simp [writeTrunc, readLog, hb]
    · simp only [writeTrunc, hn, if_false]
      by_cases hm : n = m
      · subst hm
        simp [readLog]
      · have hb : (n == m) = false := by simpa using hm
        simpa [readLog, hb] using ih

theorem length_pyEnumFrom (n : Nat) (l : List String) :
    (pyEnumFrom n l).length = l.length := by
  induction l generalizing n with
  | nil => simp [pyEnumFrom]
  | cons a t ih => simp [pyEnumFrom, ih]

theorem mem_cyclesTrace {o : Oracle} {l : List (Nat × String)} {e : Event} :
    e ∈ cyclesTrace o l ↔ ∃ p ∈ l, e ∈ cycleEvents o p.1 p.2 := by
  induction l with
  | nil => simp [cyclesTrace]
  | cons p t ih =>
    obtain ⟨i, a⟩ := p
    simp only [cyclesTrace, List.mem_append, ih, List.mem_cons]
    constructor
    · rintro (h | ⟨q, hq, he⟩)
      · exact ⟨(i, a), Or.inl rfl, h⟩
      · exact ⟨q, Or.inr hq, he⟩
    · rintro ⟨q, (rfl | hq), he⟩
      · exact Or.inl he
      · exact Or.inr ⟨q, hq, he⟩

theorem cyclesTrace_countP_extract (o : Oracle) (l : List (Nat × String)) :
    (cyclesTrace o l).countP isExtractEvent = l.length := by
  induction l with
  | nil => simp [cyclesTrace]
  | cons p t ih =>
    obtain ⟨i, a⟩ := p
    simp [cyclesTrace, cycleEvents, List.countP_append, List.countP_cons, ih,
      isExtractEvent, Nat.add_comm]

theorem cyclesTrace_countP_merge (o : Oracle) (l : List (Nat × String)) :
    (cyclesTrace o l).countP isMergeEvent = l.length := by
  induction l with
  | nil => simp [cyclesTrace]
  | cons p t ih =>
    obtain ⟨i, a⟩ := p
    simp [cyclesTrace, cycleEvents, List.countP_append, List.countP_cons, ih,
      isMergeEvent, Nat.add_comm]

theorem cyclesTrace_countP_clean (o : Oracle) (l : List (Nat × String)) :
    (cyclesTrace o l).countP isCleanEvent = l.length := by
  induction l with
  | nil => simp [cyclesTrace]
  | cons p t ih =>
    obtain ⟨i, a⟩ := p
    simp [cyclesTrace, cycleEvents, List.countP_append, List.countP_cons, ih,
      isCleanEvent, Nat.add_comm]

theorem cyclesTrace_no_prompt (o : Oracle) (l : List (Nat × String)) :
    ∀ e ∈ cyclesTrace o l, isPromptEvent e = false := by
  intro e he
  rw [mem_cyclesTrace] at he
  obtain ⟨p, _, hp⟩ := he
  simp only [cycleEvents, List.mem_cons, List.mem_singleton] at hp
  rcases hp with rfl | rfl | (rfl | h)
  · rfl
  · rfl
  · rfl
  · simp at h

/-- One block of successful non-first cycles, as a prefix of the loop:
each cycle extracts into an absent scratch directory, merges into the
destination, truncate-writes the run log and cleans up, and the loop
continues with the rest. -/
theorem runFrom_cycles_prefix (o : Oracle) (logFile : String)
    (l rest : List (Nat × String))
    (hnz : ∀ p ∈ l, p.1 ≠ 0)
    (hex : ∀ p ∈ l, o.extractOk p.1 = true)
    (hm : ∀ p ∈ l, o.mergeRC p.1 = 0)
    (st : RunState) (hs : st.scratch = none) :
    runFrom o logFile (l ++ rest) st =
      runFrom o logFile rest
        ⟨none, destAfter o l st.dest, logsAfter o logFile l st.logs,
         st.trace ++ cyclesTrace o l⟩ := by
  induction l generalizing st with
  | nil =>
    simp only [List.nil_append, destAfter, logsAfter, cyclesTrace, List.foldl_nil,
      List.append_nil]
    obtain ⟨s, d, lg, tr⟩ := st
    simp only at hs
    rw [hs]
  | cons p rest1 ih =>
    obtain ⟨i, a⟩ := p
    have hi : i ≠ 0 := hnz (i, a) (List.mem_cons_self _ _)
    have hie : o.extractOk i = true := hex (i, a) (List.mem_cons_self _ _)
    have him : o.mergeRC i = 0 := hm (i, a) (List.mem_cons_self _ _)
    have step : runFrom o logFile (((i, a) :: rest1) ++ rest) st =
        runFrom o logFile (rest1 ++ rest)
          ⟨none, applyRsync (mergeInto [] (o.archiveFiles i)) st.dest,
           writeTrunc st.logs logFile [⟨i, false⟩],
           st.trace ++ [Event.extracted i a none, Event.merged i 0, Event.cleaned i]⟩ := by
      simp [runFrom, extractStep, mergeStep, cleanupStep, hie, hi, him, hs]
    rw [step,
      ih (fun q hq => hnz q (List.mem_cons_of_mem _ hq))
        (fun q hq => hex q (List.mem_cons_of_mem _ hq))
        (fun q hq => hm q (List.mem_cons_of_mem _ hq))
        ⟨none, applyRsync (mergeInto [] (o.archiveFiles i)) st.dest,
         writeTrunc st.logs logFile [⟨i, false⟩],
         st.trace ++ [Event.extracted i a none, Event.merged i 0, Event.cleaned i]⟩ rfl]
    simp [destAfter, logsAfter, cyclesTrace, cycleEvents, him]

/-- The first archive's cycle when the dry run succeeds, the user
confirms, and the merge succeeds: extract, dry-run preview, prompt,
real merge, cleanup, then the loop continues. -/
theorem runFrom_first_confirmed (o : Oracle) (logFile : String) (f : String)
    (rest : List (Nat × String)) (st : RunState) (hs : st.scratch = none)
    (hex : o.extractOk 0 = true) (hdr : o.dryRunRC = 0) (hy : o.userYes = true)
    (hm : o.mergeRC 0 = 0) :
    runFrom o logFile ((0, f) :: rest) st =
      runFrom o logFile rest
        ⟨none, applyRsync (mergeInto [] (o.archiveFiles 0)) st.dest,
         writeTrunc (writeTrunc st.logs (withSuffixPy logFile ".dryrun.log") [⟨0, true⟩])
           logFile [⟨0, false⟩],
         st.trace ++ [Event.extracted 0 f none, Event.dryRun 0 0, Event.prompted true,
                      Event.merged 0 0, Event.cleaned 0]⟩ := by
  simp [runFrom, extractStep, previewStep, dryRunStep, mergeStep, cleanupStep,
    hex, hdr, hy, hm, hs]

theorem charListLe_total : ∀ a b : List Char, charListLe a b = true ∨ charListLe b a = true
  | [], _ => Or.inl rfl
  | _ :: _, [] => Or.inr rfl
  | x :: s, y :: t => by
    by_cases hxy : x < y
    · exact Or.inl (by simp [charListLe, hxy])
    · by_cases hyx : y < x
      · exact Or.inr (by simp [charListLe, hyx])
      · rcases charListLe_total s t with h | h
        · exact Or.inl (by simp [charListLe, hxy, hyx, h])
        · exact Or.inr (by simp [charListLe, hxy, hyx, h])

theorem charListLe_trans :
    ∀ a b c : List Char, charListLe a b = true → charListLe b c = true →
      charListLe a c = true
  | [], _, _, _, _ => rfl
  | _ :: _, [], _, hab, _ => by simp [charListLe] at hab
  | _ :: _, _ :: _, [], _, hbc => by simp [charListLe] at hbc
  | x :: s, y :: t, z :: u, hab, hbc => by
    by_cases hxy : x < y
    · by_cases hyz : y < z
      · simp [charListLe, lt_trans hxy hyz]
      · by_cases hzy : z < y
        · simp [charListLe, hyz, hzy] at hbc
        · have hyzeq : y = z := le_antisymm (not_lt.mp hzy) (not_lt.mp hyz)
          subst hyzeq
          simp [charListLe, hxy]
    · by_cases hyx : y < x
      · simp [charListLe, hxy, hyx] at hab
      · have hxyeq : x = y := le_antisymm (not_lt.mp hyx) (not_lt.mp hxy)
        subst hxyeq
        simp only [charListLe, hxy, hyx, if_false, ite_false, reduceIte] at hab
        by_cases hxz : x < z
        · simp [charListLe, hxz]
        · by_cases hzx : z < x
          · simp [charListLe, hxz, hzx] at hbc
          · have hxzeq : x = z := le_antisymm (not_lt.mp hzx) (not_lt.mp hxz)
            subst hxzeq
            simp only [charListLe, hxz, if_false, ite_false, reduceIte] at hbc ⊢
            exact charListLe_trans s t u hab hbc

theorem nameLe_total (a b : String) : nameLe a b = true ∨ nameLe b a = true :=
  charListLe_total a.data b.data

theorem nameLe_trans {a b c : String} (h1 : nameLe a b = true) (h2 : nameLe b c = true) :
    nameLe a c = true :=
  charListLe_trans a.data b.data c.data h1 h2

theorem mem_insertSorted {x z : String} :
    ∀ {l : List String}, z ∈ insertSorted x l ↔ z = x ∨ z ∈ l := by
  intro l
  induction l with
  | nil => simp [insertSorted]
  | cons y ys ih =>
    by_cases hxy : nameLe x y = true
    · simp [insertSorted, hxy]
    · simp [insertSorted, hxy, ih]
      tauto

theorem pairwise_insertSorted {x : String} {l : List String}
    (h : l.Pairwise (fun a b => nameLe a b = true)) :
    (insertSorted x l).Pairwise (fun a b => nameLe a b = true) := by
  induction l with
  | nil => simp [insertSorted]
  | cons y ys ih =>
    rcases List.pairwise_cons.mp h with ⟨hy, hys⟩
    by_cases hxy : nameLe x y = true
    · simp only [insertSorted, hxy, if_true, ite_true, reduceIte]
      refine List.pairwise_cons.mpr ⟨?_, h⟩
      intro z hz
      rcases List.mem_cons.mp hz with rfl | hz
      · exact hxy
      · exact nameLe_trans hxy (hy z hz)
    · have hyx : nameLe y x = true := (nameLe_total x y).resolve_left hxy
      simp only [insertSorted, hxy, if_false, ite_false, reduceIte]
      refine List.pairwise_cons.mpr ⟨?_, ih hys⟩
      intro z hz
      rcases mem_insertSorted.mp hz with rfl | hz
      · exact hyx
      · exact hy z hz

theorem sortNames_pairwise (l : List String) :
    (sortNames l).Pairwise (fun a b => nameLe a b = true) := by
  induction l with
  | nil => simp [sortNames]
  | cons a t ih => exact pairwise_insertSorted ih

theorem findTgzFiles_pairwise (entries : List String) :
    (findTgzFiles entries).Pairwise (fun a b => nameLe a b = true) :=
  sortNames_pairwise _

/-- Claim C6 (confirmed): when validation discovers the archives, the
user confirms, and every extraction and merge succeeds, the run performs
exactly one extract→merge→cleanup cycle per discovered archive — the
trace is the first confirmed cycle followed by one cycle per remaining
archive, pairing position `i` with the `i`-th name of the sorted list —
and the sorted list is lexicographically ordered; the process exits 0. -/
theorem confirmed_run_processes_all_sorted (o : Oracle) (logFile : String)
    (entries : List String) (st0 : RunState)
    (hs : st0.scratch = none) (ht : st0.trace = [])
    (f : String) (fs : List String)
    (hsplit : findTgzFiles entries = f :: fs)
    (hex : ∀ i, o.extractOk i = true)
    (hdr : o.dryRunRC = 0) (hy : o.userYes = true)
    (hm : ∀ i, o.mergeRC i = 0) :
    (runTakeout o logFile entries st0).exit = 0 ∧
    (runTakeout o logFile entries st0).state.trace =
      [Event.extracted 0 f none, Event.dryRun 0 0, Event.prompted true,
       Event.merged 0 0, Event.cleaned 0] ++ cyclesTrace o (pyEnumFrom 1 fs) ∧
    (runTakeout o logFile entries st0).state.trace.countP isExtractEvent = (f :: fs).length ∧
    (runTakeout o logFile entries st0).state.trace.countP isMergeEvent = (f :: fs).length ∧
    (runTakeout o logFile entries st0).state.trace.countP isCleanEvent = (f :: fs).length ∧
    (findTgzFiles entries).Pairwise (fun a b => nameLe a b = true) := by
  have hrun : runTakeout o logFile entries st0 =
      runFrom o logFile ((0, f) :: pyEnumFrom 1 fs) st0 := by
    simp [runTakeout, hsplit, pyEnumFrom]
  rw [hrun, runFrom_first_confirmed o logFile f _ st0 hs (hex 0) hdr hy (hm 0),
    runFrom_cycles o logFile (pyEnumFrom 1 fs)
      (fun p hp => by have := mem_pyEnumFrom hp; omega)
      (fun p _ => hex p.1) (fun p _ => hm p.1) _ rfl]
  refine ⟨rfl, by simp [ht], ?_, ?_, ?_, findTgzFiles_pairwise entries⟩
  · simp [ht, List.countP_append, cyclesTrace_countP_extract, length_pyEnumFrom,
      List.countP_cons, isExtractEvent, Nat.add_comm]
  · simp [ht, List.countP_append, cyclesTrace_countP_merge, length_pyEnumFrom,
      List.countP_cons, isMergeEvent, Nat.add_comm]
  · simp [ht, List.countP_append, cyclesTrace_countP_clean, length_pyEnumFrom,
      List.countP_cons, isCleanEvent, Nat.add_comm]

/-- Witness for C6 at a concrete two-archive run. -/
theorem confirmed_run_processes_all_sorted_witness :
    (runTakeout okOracle "takeout-merge-8.log"
      ["takeout-002.tgz", "takeout-001.tgz"] initState).exit = 0 ∧
    (runTakeout okOracle "takeout-merge-8.log"
      ["takeout-002.tgz", "takeout-001.tgz"] initState).state.trace =
      [Event.extracted 0 "takeout-001.tgz" none, Event.dryRun 0 0, Event.prompted true,
       Event.merged 0 0, Event.cleaned 0] ++
        cyclesTrace okOracle (pyEnumFrom 1 ["takeout-002.tgz"]) ∧
    (runTakeout okOracle "takeout-merge-8.log"
      ["takeout-002.tgz", "takeout-001.tgz"] initState).state.trace.countP isExtractEvent =
      (["takeout-001.tgz", "takeout-002.tgz"] : List String).length ∧
    (runTakeout okOracle "takeout-merge-8.log"
      ["takeout-002.tgz", "takeout-001.tgz"] initState).state.trace.countP isMergeEvent =
      (["takeout-001.tgz", "takeout-002.tgz"] : List String).length ∧
    (runTakeout okOracle "takeout-merge-8.log"
      ["takeout-002.tgz", "takeout-001.tgz"] initState).state.trace.countP isCleanEvent =
      (["takeout-001.tgz", "takeout-002.tgz"] : List String).length ∧
    (findTgzFiles ["takeout-002.tgz", "takeout-001.tgz"]).Pairwise
      (fun a b => nameLe a b = true) :=
  confirmed_run_processes_all_sorted okOracle "takeout-merge-8.log"
    ["takeout-002.tgz", "takeout-001.tgz"] initState rfl rfl
    "takeout-001.tgz" ["takeout-002.tgz"] (by decide)
    (fun _ => rfl) rfl rfl (fun _ => rfl)

/-- Claim C2, counterexample: at a concrete run whose only archive
extracts fine but whose real merge fails, the run exits 1 with the
scratch directory still present (cleanup never ran): the claimed
"cleanup still runs before the run terminates" is false. -/
theorem mergeFail_cleanup_skipped_cex :
    (runTakeout { okOracle with mergeRC := fun _ => 12 } "takeout-merge-9.log"
      ["takeout-001.tgz"] initState).exit = 1 ∧
    (runTakeout { okOracle with mergeRC := fun _ => 12 } "takeout-merge-9.log"
      ["takeout-001.tgz"] initState).state.scratch ≠ none ∧
    Event.cleaned 0 ∉ (runTakeout { okOracle with mergeRC := fun _ => 12 }
      "takeout-merge-9.log" ["takeout-001.tgz"] initState).state.trace := by
  decide

/-- Claim C2 (amended): when the real rsync fails on an archive whose
extraction succeeded, the `RuntimeError` raised by `merge` propagates
PAST the cleanup call: the failing archive's scratch directory is NOT
removed — it still holds that archive's extracted files, and no cleanup
event for that archive is ever logged.  The merge failure remains fatal
to the whole run (exit status 1). -/
theorem mergeFail_fatal_and_skips_cleanup (o : Oracle) (logFile : String)
    (entries : List String) (st0 : RunState)
    (hs : st0.scratch = none) (ht : st0.trace = [])
    (names1 : List String) (a : String) (names2 : List String)
    (hsplit : findTgzFiles entries = names1 ++ a :: names2)
    (hex : ∀ i, o.extractOk i = true)
    (hdr : o.dryRunRC = 0) (hy : o.userYes = true)
    (hm : ∀ i, i < names1.length → o.mergeRC i = 0)
    (hmk : o.mergeRC names1.length ≠ 0) :
    (runTakeout o logFile entries st0).exit = 1 ∧
    (runTakeout o logFile entries st0).state.scratch =
      some (mergeInto [] (o.archiveFiles names1.length)) ∧
    Event.cleaned names1.length ∉ (runTakeout o logFile entries st0).state.trace := by
  cases names1 with
  | nil =>
    simp only [List.length_nil] at hm hmk
    have hrun : runTakeout o logFile entries st0 =
        runFrom o logFile ((0, a) :: pyEnumFrom 1 names2) st0 := by
      simp [runTakeout, hsplit, pyEnumFrom]
    rw [hrun]
    simp [runFrom, extractStep, previewStep, dryRunStep, mergeStep, cleanupStep,
      hex 0, hdr, hy, hmk, hs, ht]
  | cons f0 n1 =>
    have hk : (f0 :: n1).length = n1.length + 1 := by simp
    have hrun : runTakeout o logFile entries st0 =
        runFrom o logFile
          ((0, f0) :: (pyEnumFrom 1 n1 ++ pyEnumFrom (n1.length + 1) (a :: names2)))
          st0 := by
      simp only [runTakeout, hsplit, List.cons_append, List.isEmpty_cons,
        Bool.false_eq_true, if_false, ite_false, reduceIte]
      have happ : pyEnumFrom 0 (f0 :: (n1 ++ a :: names2)) =
          (0, f0) :: (pyEnumFrom 1 n1 ++ pyEnumFrom (n1.length + 1) (a :: names2)) := by
        show (0, f0) :: pyEnumFrom 1 (n1 ++ a :: names2) = _
        rw [pyEnumFrom_append]
        simp [Nat.add_comm]
      rw [happ]
    rw [hrun, runFrom_first_confirmed o logFile f0 _ st0 hs (hex 0) hdr hy
        (hm 0 (by omega)),
      runFrom_cycles_prefix o logFile (pyEnumFrom 1 n1) _
        (fun p hp => by have := mem_pyEnumFrom hp; omega)
        (fun p _ => hex p.1)
        (fun p hp => by have := mem_pyEnumFrom hp; exact hm p.1 (by omega)) _ rfl]
    have step : runFrom o logFile (pyEnumFrom (n1.length + 1) (a :: names2))
        ⟨none,
         destAfter o (pyEnumFrom 1 n1)
           (applyRsync (mergeInto [] (o.archiveFiles 0)) st0.dest),
         logsAfter o logFile (pyEnumFrom 1 n1)
           (writeTrunc (writeTrunc st0.logs (withSuffixPy logFile ".dryrun.log")
             [⟨0, true⟩]) logFile [⟨0, false⟩]),
         (st0.trace ++ [Event.extracted 0 f0 none, Event.dryRun 0 0, Event.prompted true,
            Event.merged 0 0, Event.cleaned 0]) ++ cyclesTrace o (pyEnumFrom 1 n1)⟩ =
        ⟨{ scratch := some (mergeInto [] (o.archiveFiles (n1.length + 1))),
           dest := destAfter o (pyEnumFrom 1 n1)
             (applyRsync (mergeInto [] (o.archiveFiles 0)) st0.dest),
           logs := writeTrunc
             (logsAfter o logFile (pyEnumFrom 1 n1)
               (writeTrunc (writeTrunc st0.logs (withSuffixPy logFile ".dryrun.log")
                 [⟨0, true⟩]) logFile [⟨0, false⟩]))
             logFile [⟨n1.length + 1, false⟩],
           trace := ((st0.trace ++ [Event.extracted 0 f0 none, Event.dryRun 0 0,
              Event.prompted true, Event.merged 0 0, Event.cleaned 0]) ++
              cyclesTrace o (pyEnumFrom 1 n1)) ++
              [Event.extracted (n1.length + 1) a none,
               Event.merged (n1.length + 1) (o.mergeRC (n1.length + 1))] }, 1⟩ := by
      have hkex : o.extractOk (n1.length + 1) = true := hex _
      have hkm : ¬ o.mergeRC (n1.length + 1) = 0 := by
        intro h
        exact hmk (by simpa [hk] using h)
      simp [pyEnumFrom, runFrom, extractStep, mergeStep, hkex, hkm]
    rw [step]
    refine ⟨rfl, by simp [hk], ?_⟩
    intro hmem
    simp only [hk, ht, List.nil_append, List.append_assoc, List.mem_append,
      List.mem_cons, List.mem_singleton, List.not_mem_nil] at hmem
    rcases hmem with h | h | h
    · rcases h with h | h | h | h | h <;> simp at h
    · have := mem_cyclesTrace.mp h
      obtain ⟨p, hp, hpe⟩ := this
      have hb := mem_pyEnumFrom hp
      simp only [cycleEvents, List.mem_cons, List.mem_singleton] at hpe
      rcases hpe with h1 | h1 | h1 | h1
      · simp at h1
      · simp at h1
      · have : n1.length + 1 = p.1 := by
          injection h1
        omega
      · simp at h1
    · rcases h with h | h <;> simp at h

/-- Witness for C2's amended theorem: two archives, second merge fails. -/
theorem mergeFail_fatal_and_skips_cleanup_witness :
    (runTakeout { okOracle with mergeRC := fun i => i } "takeout-merge-10.log"
      ["takeout-001.tgz", "takeout-002.tgz"] initState).exit = 1 ∧
    (runTakeout { okOracle with mergeRC := fun i => i } "takeout-merge-10.log"
      ["takeout-001.tgz", "takeout-002.tgz"] initState).state.scratch =
      some (mergeInto [] ({ okOracle with mergeRC := fun i => i }.archiveFiles
        (["takeout-001.tgz"] : List String).length)) ∧
    Event.cleaned (["takeout-001.tgz"] : List String).length ∉
      (runTakeout { okOracle with mergeRC := fun i => i } "takeout-merge-10.log"
        ["takeout-001.tgz", "takeout-002.tgz"] initState).state.trace :=
  mergeFail_fatal_and_skips_cleanup { okOracle with mergeRC := fun i => i }
    "takeout-merge-10.log" ["takeout-001.tgz", "takeout-002.tgz"] initState rfl rfl
    ["takeout-001.tgz"] "takeout-002.tgz" [] (by decide)
    (fun _ => rfl) rfl rfl
    (fun i hi => by
      have h0 : i = 0 := Nat.lt_one_iff.mp (by simpa using hi)
      subst h0
      rfl)
    (by decide)

theorem readLog_logsAfter_ne (o : Oracle) (logFile m : String)
    (l : List (Nat × String)) (fs : LogFS) (h : m ≠ logFile) :
    readLog (logsAfter o logFile l fs) m = readLog fs m := by
  induction l generalizing fs with
  | nil => rfl
  | cons p t ih =>
    rw [show logsAfter o logFile (p :: t) fs =
        logsAfter o logFile t (writeTrunc fs logFile [⟨p.1, false⟩]) from rfl]
    rw [ih, readLog_writeTrunc_ne fs logFile m _ h]

theorem readLog_logsAfter_last (o : Oracle) (logFile : String)
    (l : List (Nat × String)) (q : Nat × String) (fs : LogFS) :
    readLog (logsAfter o logFile (l ++ [q]) fs) logFile = some [⟨q.1, false⟩] := by
  rw [show logsAfter o logFile (l ++ [q]) fs =
      writeTrunc (logsAfter o logFile l fs) logFile [⟨q.1, false⟩] from by
    simp [logsAfter, List.foldl_append]]
  exact readLog_writeTrunc_eq _ _ _

/-- Claim C3, counterexample: after a confirmed run over two archives in
which both merges succeed, the cumulative run log file holds ONLY the
second invocation's output — the first merge's output is gone, refuting
the claim that the log accumulates all N outputs. -/
theorem runLog_overwritten_cex :
    readLog (runTakeout okOracle "takeout-merge-11.log"
      ["takeout-001.tgz", "takeout-002.tgz"] initState).state.logs
      "takeout-merge-11.log" = some [⟨1, false⟩] ∧
    RsyncTag.mk 0 false ∉
      ((readLog (runTakeout okOracle "takeout-merge-11.log"
        ["takeout-001.tgz", "takeout-002.tgz"] initState).state.logs
        "takeout-merge-11.log").getD []) := by
  decide

/-- Claim C3 (amended): `_run_rsync` opens its log file with mode "w",
so each real merge TRUNCATES the run log file and writes only its own
raw output — after a confirmed fully successful run the run log holds
exactly the last merge's output, not all N outputs.  Each dry-run
preview does go to a separate file, the run log name with its suffix
replaced by ".dryrun.log", which afterwards holds the preview output. -/
theorem runLog_truncated_dryrun_separate (o : Oracle) (logFile : String)
    (entries : List String) (st0 : RunState) (hs : st0.scratch = none)
    (names1 : List String) (a : String)
    (hsplit : findTgzFiles entries = names1 ++ [a])
    (hex : ∀ i, o.extractOk i = true) (hdr : o.dryRunRC = 0) (hy : o.userYes = true)
    (hm : ∀ i, o.mergeRC i = 0)
    (hneq : withSuffixPy logFile ".dryrun.log" ≠ logFile) :
    readLog (runTakeout o logFile entries st0).state.logs logFile =
      some [⟨names1.length, false⟩] ∧
    readLog (runTakeout o logFile entries st0).state.logs
      (withSuffixPy logFile ".dryrun.log") = some [⟨0, true⟩] ∧
    withSuffixPy logFile ".dryrun.log" ≠ logFile := by
  cases names1 with
  | nil =>
    have hrun : runTakeout o logFile entries st0 =
        runFrom o logFile ((0, a) :: pyEnumFrom 1 []) st0 := by
      simp [runTakeout, hsplit, pyEnumFrom]
    rw [hrun, runFrom_first_confirmed o logFile a _ st0 hs (hex 0) hdr hy (hm 0)]
    rw [show pyEnumFrom 1 ([] : List String) = [] from rfl]
    refine ⟨?_, ?_, hneq⟩
    · exact readLog_writeTrunc_eq _ _ _
    · rw [show (runFrom o logFile []
          ⟨none, applyRsync (mergeInto [] (o.archiveFiles 0)) st0.dest,
           writeTrunc (writeTrunc st0.logs (withSuffixPy logFile ".dryrun.log")
             [⟨0, true⟩]) logFile [⟨0, false⟩],
           st0.trace ++ [Event.extracted 0 a none, Event.dryRun 0 0, Event.prompted true,
             Event.merged 0 0, Event.cleaned 0]⟩).state.logs =
          writeTrunc (writeTrunc st0.logs (withSuffixPy logFile ".dryrun.log")
            [⟨0, true⟩]) logFile [⟨0, false⟩] from rfl]
      rw [readLog_writeTrunc_ne _ _ _ _ hneq]
      exact readLog_writeTrunc_eq _ _ _
  | cons f0 n1 =>
    have hrun : runTakeout o logFile entries st0 =
        runFrom o logFile ((0, f0) :: pyEnumFrom 1 (n1 ++ [a])) st0 := by
      simp [runTakeout, hsplit, pyEnumFrom]
    rw [hrun, runFrom_first_confirmed o logFile f0 _ st0 hs (hex 0) hdr hy (hm 0),
      runFrom_cycles o logFile (pyEnumFrom 1 (n1 ++ [a]))
        (fun p hp => by have := mem_pyEnumFrom hp; omega)
        (fun p _ => hex p.1) (fun p _ => hm p.1) _ rfl]
    have happ : pyEnumFrom 1 (n1 ++ [a]) =
        pyEnumFrom 1 n1 ++ [(n1.length + 1, a)] := by
      rw [pyEnumFrom_append]
      simp [pyEnumFrom, Nat.add_comm]
    refine ⟨?_, ?_, hneq⟩
    · rw [show (RunResult.mk ⟨none, destAfter o (pyEnumFrom 1 (n1 ++ [a])) _,
          logsAfter o logFile (pyEnumFrom 1 (n1 ++ [a])) _, _⟩ 0).state.logs =
          logsAfter o logFile (pyEnumFrom 1 (n1 ++ [a]))
            (writeTrunc (writeTrunc st0.logs (withSuffixPy logFile ".dryrun.log")
              [⟨0, true⟩]) logFile [⟨0, false⟩]) from rfl]
      rw [happ, readLog_logsAfter_last]
      simp
    · rw [show (RunResult.mk ⟨none, destAfter o (pyEnumFrom 1 (n1 ++ [a])) _,
          logsAfter o logFile (pyEnumFrom 1 (n1 ++ [a])) _, _⟩ 0).state.logs =
          logsAfter o logFile (pyEnumFrom 1 (n1 ++ [a]))
            (writeTrunc (writeTrunc st0.logs (withSuffixPy logFile ".dryrun.log")
              [⟨0, true⟩]) logFile [⟨0, false⟩]) from rfl]
      rw [readLog_logsAfter_ne _ _ _ _ _ hneq, readLog_writeTrunc_ne _ _ _ _ hneq]
      exact readLog_writeTrunc_eq _ _ _

/-- Witness for C3's amended theorem at a concrete two-archive run. -/
theorem runLog_truncated_dryrun_separate_witness :
    readLog (runTakeout okOracle "takeout-merge-12.log"
      ["takeout-001.tgz", "takeout-002.tgz"] initState).state.logs
      "takeout-merge-12.log" = some [⟨(["takeout-001.tgz"] : List String).length, false⟩] ∧
    readLog (runTakeout okOracle "takeout-merge-12.log"
      ["takeout-001.tgz", "takeout-002.tgz"] initState).state.logs
      (withSuffixPy "takeout-merge-12.log" ".dryrun.log") = some [⟨0, true⟩] ∧
    withSuffixPy "takeout-merge-12.log" ".dryrun.log" ≠ "takeout-merge-12.log" :=
  runLog_truncated_dryrun_separate okOracle "takeout-merge-12.log"
    ["takeout-001.tgz", "takeout-002.tgz"] initState rfl
    ["takeout-001.tgz"] "takeout-002.tgz" (by decide)
    (fun _ => rfl) rfl rfl (fun _ => rfl) (by decide)

/-- Claim C8 (confirmed): if extraction of the archive at sorted
position k fails after archives 0..k-1 extracted and merged
successfully, the run aborts with exit status 1: the partial extraction
output is left in the scratch directory (no automatic removal), the
failing archive is never merged, the destination holds exactly the
merges of archives 0..k-1, and no archive after k is ever attempted. -/
theorem extractFail_aborts_preserving_state (o : Oracle) (logFile : String)
    (entries : List String) (st0 : RunState)
    (hs : st0.scratch = none) (ht : st0.trace = [])
    (names1 : List String) (a : String) (names2 : List String)
    (hsplit : findTgzFiles entries = names1 ++ a :: names2)
    (hex : ∀ i, i < names1.length → o.extractOk i = true)
    (hdr : o.dryRunRC = 0) (hy : o.userYes = true)
    (hm : ∀ i, i < names1.length → o.mergeRC i = 0)
    (hkex : o.extractOk names1.length = false) :
    (runTakeout o logFile entries st0).exit = 1 ∧
    (runTakeout o logFile entries st0).state.scratch =
      some (mergeInto [] (o.leftoverFiles names1.length)) ∧
    (runTakeout o logFile entries st0).state.dest =
      destAfter o (pyEnumFrom 0 names1) st0.dest ∧
    Event.extractFailed names1.length a none ∈
      (runTakeout o logFile entries st0).state.trace ∧
    (∀ i rc, Event.merged i rc ∈ (runTakeout o logFile entries st0).state.trace →
      i < names1.length) ∧
    (∀ i b pre, Event.extracted i b pre ∈ (runTakeout o logFile entries st0).state.trace →
      i < names1.length) := by
  cases names1 with
  | nil =>
    simp only [List.length_nil] at hkex
    have hrun : runTakeout o logFile entries st0 =
        runFrom o logFile ((0, a) :: pyEnumFrom 1 names2) st0 := by
      simp [runTakeout, hsplit, pyEnumFrom]
    rw [hrun]
    simp [runFrom, extractStep, hkex, hs, ht, destAfter, pyEnumFrom]
  | cons f0 n1 =>
    have hk : (f0 :: n1).length = n1.length + 1 := by simp
    have hrun : runTakeout o logFile entries st0 =
        runFrom o logFile
          ((0, f0) :: (pyEnumFrom 1 n1 ++ pyEnumFrom (n1.length + 1) (a :: names2)))
          st0 := by
      simp only [runTakeout, hsplit, List.cons_append, List.isEmpty_cons,
        Bool.false_eq_true, if_false, ite_false, reduceIte]
      have happ : pyEnumFrom 0 (f0 :: (n1 ++ a :: names2)) =
          (0, f0) :: (pyEnumFrom 1 n1 ++ pyEnumFrom (n1.length + 1) (a :: names2)) := by
        show (0, f0) :: pyEnumFrom 1 (n1 ++ a :: names2) = _
        rw [pyEnumFrom_append]
        simp [Nat.add_comm]
      rw [happ]
    rw [hrun, runFrom_first_confirmed o logFile f0 _ st0 hs (hex 0 (by omega)) hdr hy
        (hm 0 (by omega)),
      runFrom_cycles_prefix o logFile (pyEnumFrom 1 n1) _
        (fun p hp => by have := mem_pyEnumFrom hp; omega)
        (fun p hp => by have := mem_pyEnumFrom hp; exact hex p.1 (by omega))
        (fun p hp => by have := mem_pyEnumFrom hp; exact hm p.1 (by omega)) _ rfl]
    have hkex2 : o.extractOk (n1.length + 1) = false := by simpa [hk] using hkex
    have step : runFrom o logFile (pyEnumFrom (n1.length + 1) (a :: names2))
        ⟨none,
         destAfter o (pyEnumFrom 1 n1)
           (applyRsync (mergeInto [] (o.archiveFiles 0)) st0.dest),
         logsAfter o logFile (pyEnumFrom 1 n1)
           (writeTrunc (writeTrunc st0.logs (withSuffixPy logFile ".dryrun.log")
             [⟨0, true⟩]) logFile [⟨0, false⟩]),
         (st0.trace ++ [Event.extracted 0 f0 none, Event.dryRun 0 0, Event.prompted true,
            Event.merged 0 0, Event.cleaned 0]) ++ cyclesTrace o (pyEnumFrom 1 n1)⟩ =
        ⟨{ scratch := some (mergeInto [] (o.leftoverFiles (n1.length + 1))),
           dest := destAfter o (pyEnumFrom 1 n1)
             (applyRsync (mergeInto [] (o.archiveFiles 0)) st0.dest),
           logs := logsAfter o logFile (pyEnumFrom 1 n1)
             (writeTrunc (writeTrunc st0.logs (withSuffixPy logFile ".dryrun.log")
               [⟨0, true⟩]) logFile [⟨0, false⟩]),
           trace := ((st0.trace ++ [Event.extracted 0 f0 none, Event.dryRun 0 0,
              Event.prompted true, Event.merged 0 0, Event.cleaned 0]) ++
              cyclesTrace o (pyEnumFrom 1 n1)) ++
              [Event.extractFailed (n1.length + 1) a none] }, 1⟩ := by
      simp [pyEnumFrom, runFrom, extractStep, hkex2]
    rw [step]
    have hdest : destAfter o (pyEnumFrom 0 (f0 :: n1)) st0.dest =
        destAfter o (pyEnumFrom 1 n1)
          (applyRsync (mergeInto [] (o.archiveFiles 0)) st0.dest) := by
      simp [pyEnumFrom, destAfter]
    refine ⟨rfl, by simp [hk], by rw [hdest], ?_, ?_, ?_⟩
    · simp [hk]
    · intro i rc hmem
      simp only [hk, ht, List.nil_append, List.append_assoc, List.mem_append,
        List.mem_cons, List.mem_singleton, List.not_mem_nil] at hmem
      rcases hmem with h | h | h
      · rcases h with h | h | h | h | h <;> first
          | (injection h with h1 h2; omega)
          | simp at h
      · obtain ⟨p, hp, hpe⟩ := mem_cyclesTrace.mp h
        have hb := mem_pyEnumFrom hp
        simp only [cycleEvents, List.mem_cons, List.mem_singleton] at hpe
        rcases hpe with h1 | h1 | h1 | h1
        · simp at h1
        · injection h1 with h2 h3
          omega
        · simp at h1
        · simp at h1
      · rcases h with h | h <;> simp at h
    · intro i b pre hmem
      simp only [hk, ht, List.nil_append, List.append_assoc, List.mem_append,
        List.mem_cons, List.mem_singleton, List.not_mem_nil] at hmem
      rcases hmem with h | h | h
      · rcases h with h | h | h | h | h <;> first
          | (injection h with h1 h2 h3; omega)
          | simp at h
      · obtain ⟨p, hp, hpe⟩ := mem_cyclesTrace.mp h
        have hb := mem_pyEnumFrom hp
        simp only [cycleEvents, List.mem_cons, List.mem_singleton] at hpe
        rcases hpe with h1 | h1 | h1 | h1
        · injection h1 with h2 h3 h4
          omega
        · simp at h1
        · simp at h1
        · simp at h1
      · rcases h with h | h <;> simp at h

/-- Witness for C8 at a concrete three-archive run whose second
extraction fails. -/
theorem extractFail_aborts_preserving_state_witness :
    (runTakeout { okOracle with extractOk := fun i => i == 0 } "takeout-merge-13.log"
      ["takeout-001.tgz", "takeout-002.tgz", "takeout-003.tgz"] initState).exit = 1 ∧
    (runTakeout { okOracle with extractOk := fun i => i == 0 } "takeout-merge-13.log"
      ["takeout-001.tgz", "takeout-002.tgz", "takeout-003.tgz"] initState).state.scratch =
      some (mergeInto [] ({ okOracle with extractOk := fun i => i == 0 }.leftoverFiles
        (["takeout-001.tgz"] : List String).length)) ∧
    (runTakeout { okOracle with extractOk := fun i => i == 0 } "takeout-merge-13.log"
      ["takeout-001.tgz", "takeout-002.tgz", "takeout-003.tgz"] initState).state.dest =
      destAfter { okOracle with extractOk := fun i => i == 0 }
        (pyEnumFrom 0 ["takeout-001.tgz"]) initState.dest ∧
    Event.extractFailed (["takeout-001.tgz"] : List String).length "takeout-002.tgz" none ∈
      (runTakeout { okOracle with extractOk := fun i => i == 0 } "takeout-merge-13.log"
        ["takeout-001.tgz", "takeout-002.tgz", "takeout-003.tgz"] initState).state.trace ∧
    (∀ i rc, Event.merged i rc ∈
      (runTakeout { okOracle with extractOk := fun i => i == 0 } "takeout-merge-13.log"
        ["takeout-001.tgz", "takeout-002.tgz", "takeout-003.tgz"] initState).state.trace →
      i < (["takeout-001.tgz"] : List String).length) ∧
    (∀ i b pre, Event.extracted i b pre ∈
      (runTakeout { okOracle with extractOk := fun i => i == 0 } "takeout-merge-13.log"
        ["takeout-001.tgz", "takeout-002.tgz", "takeout-003.tgz"] initState).state.trace →
      i < (["takeout-001.tgz"] : List String).length) :=
  extractFail_aborts_preserving_state { okOracle with extractOk := fun i => i == 0 }
    "takeout-merge-13.log" ["takeout-001.tgz", "takeout-002.tgz", "takeout-003.tgz"]
    initState rfl rfl ["takeout-001.tgz"] "takeout-002.tgz" ["takeout-003.tgz"]
    (by decide)
    (fun i hi => by
      have h0 : i = 0 := Nat.lt_one_iff.mp (by simpa using hi)
      subst h0
      rfl)
    rfl rfl
    (fun i hi => rfl)
    (by decide)

/-- Whatever the per-archive outcomes, the loop over a block of
non-first archives never evaluates the confirmation prompt: it only
appends non-prompt events to the trace. -/
theorem runFrom_trace_extends (o : Oracle) (logFile : String) :
    ∀ (l : List (Nat × String)), (∀ p ∈ l, p.1 ≠ 0) → ∀ (st : RunState),
      ∃ d, (runFrom o logFile l st).state.trace = st.trace ++ d ∧
        ∀ e ∈ d, isPromptEvent e = false := by
  intro l
  induction l with
  | nil =>
    intro _ st
    exact ⟨[], by simp [runFrom], by simp⟩
  | cons p t ih =>
    intro hnz st
    obtain ⟨i, a⟩ := p
    have hi : i ≠ 0 := hnz (i, a) (List.mem_cons_self _ _)
    by_cases hie : o.extractOk i = true
    · by_cases him : o.mergeRC i = 0
      · have step : runFrom o logFile ((i, a) :: t) st =
            runFrom o logFile t
              ⟨none,
               applyRsync (mergeInto (st.scratch.getD []) (o.archiveFiles i)) st.dest,
               writeTrunc st.logs logFile [⟨i, false⟩],
               st.trace ++ [Event.extracted i a st.scratch, Event.merged i 0,
                 Event.cleaned i]⟩ := by
          simp [runFrom, extractStep, mergeStep, cleanupStep, hie, hi, him]
        obtain ⟨d, hd, hp⟩ := ih (fun q hq => hnz q (List.mem_cons_of_mem _ hq))
          ⟨none,
           applyRsync (mergeInto (st.scratch.getD []) (o.archiveFiles i)) st.dest,
           writeTrunc st.logs logFile [⟨i, false⟩],
           st.trace ++ [Event.extracted i a st.scratch, Event.merged i 0,
             Event.cleaned i]⟩
        refine ⟨[Event.extracted i a st.scratch, Event.merged i 0, Event.cleaned i] ++ d,
          ?_, ?_⟩
        · rw [step, hd]
          simp
        · intro e he
          rcases List.mem_append.mp he with h | h
          · simp only [List.mem_cons, List.not_mem_nil, or_false] at h
            rcases h with rfl | rfl | rfl <;> rfl
          · exact hp e h
      · refine ⟨[Event.extracted i a st.scratch, Event.merged i (o.mergeRC i)], ?_, ?_⟩
        · simp [runFrom, extractStep, mergeStep, hie, hi, him]
        · intro e he
          simp only [List.mem_cons, List.not_mem_nil, or_false] at he
          rcases he with rfl | rfl <;> rfl
    · have hie2 : o.extractOk i = false := by simpa using hie
      refine ⟨[Event.extractFailed i a st.scratch], ?_, ?_⟩
      · simp [runFrom, extractStep, hie2, hi]
      · intro e he
        simp only [List.mem_cons, List.not_mem_nil, or_false] at he
        subst he
        rfl

/-- Claim C7, counterexample: in a run whose first extraction fails,
the confirmation prompt is evaluated zero times, not exactly once. -/
theorem prompt_zero_evaluations_cex :
    ((runTakeout { okOracle with extractOk := fun _ => false } "takeout-merge-14.log"
      ["takeout-001.tgz"] initState).state.trace.countP isPromptEvent) = 0 := by
  decide

/-- Claim C7 (amended): in every run the confirmation prompt is
evaluated AT MOST once, and whenever any real merge occurs it was
evaluated exactly once — after the first archive's extraction and
before every real merge — and is never evaluated again afterwards.
(Runs that abort before the preview — a failed validation, a failed
first extraction, or a failed dry run — never evaluate it at all.) -/
theorem prompt_at_most_once_before_merges (o : Oracle) (logFile : String)
    (entries : List String) (st0 : RunState) (ht : st0.trace = []) :
    (runTakeout o logFile entries st0).state.trace.countP isPromptEvent ≤ 1 ∧
    ((∃ i rc, Event.merged i rc ∈ (runTakeout o logFile entries st0).state.trace) →
      ∃ pre b post, (runTakeout o logFile entries st0).state.trace =
          pre ++ Event.prompted b :: post ∧
        (∀ e ∈ pre, isPromptEvent e = false) ∧
        (∀ e ∈ post, isPromptEvent e = false) ∧
        (∀ e ∈ pre, isMergeEvent e = false) ∧
        (∃ fn preS, Event.extracted 0 fn preS ∈ pre)) := by
  cases hfe : findTgzFiles entries with
  | nil =>
    have hrun : runTakeout o logFile entries st0 = ⟨st0, 1⟩ := by
      simp [runTakeout, hfe]
    rw [hrun]
    refine ⟨by simp [ht], ?_⟩
    rintro ⟨i, rc, hmem⟩
    simp [ht] at hmem
  | cons f fs =>
    have hrun : runTakeout o logFile entries st0 =
        runFrom o logFile ((0, f) :: pyEnumFrom 1 fs) st0 := by
      simp [runTakeout, hfe, pyEnumFrom]
    rw [hrun]
    by_cases hex : o.extractOk 0 = true
    · by_cases hdr : o.dryRunRC = 0
      · by_cases hy : o.userYes = true
        · by_cases hm : o.mergeRC 0 = 0
          · have step : runFrom o logFile ((0, f) :: pyEnumFrom 1 fs) st0 =
                runFrom o logFile (pyEnumFrom 1 fs)
                  ⟨none,
                   applyRsync (mergeInto (st0.scratch.getD []) (o.archiveFiles 0)) st0.dest,
                   writeTrunc (writeTrunc st0.logs (withSuffixPy logFile ".dryrun.log")
                     [⟨0, true⟩]) logFile [⟨0, false⟩],
                   st0.trace ++ [Event.extracted 0 f st0.scratch, Event.dryRun 0 0,
                     Event.prompted true, Event.merged 0 0, Event.cleaned 0]⟩ := by
              simp [runFrom, extractStep, previewStep, dryRunStep, mergeStep, cleanupStep,
                hex, hdr, hy, hm]
            obtain ⟨d, hd, hp⟩ := runFrom_trace_extends o logFile (pyEnumFrom 1 fs)
              (fun p hp => by have := mem_pyEnumFrom hp; omega)
              ⟨none,
               applyRsync (mergeInto (st0.scratch.getD []) (o.archiveFiles 0)) st0.dest,
               writeTrunc (writeTrunc st0.logs (withSuffixPy logFile ".dryrun.log")
                 [⟨0, true⟩]) logFile [⟨0, false⟩],
               st0.trace ++ [Event.extracted 0 f st0.scratch, Event.dryRun 0 0,
                 Event.prompted true, Event.merged 0 0, Event.cleaned 0]⟩
            rw [step, hd]
            have hd0 : d.countP isPromptEvent = 0 :=
              List.countP_eq_zero.mpr (fun e he => by simp [hp e he])
            refine ⟨?_, ?_⟩
            · simp [ht, List.countP_append, List.countP_cons, isPromptEvent, hd0]
            · intro _
              refine ⟨[Event.extracted 0 f st0.scratch, Event.dryRun 0 0], true,
                [Event.merged 0 0, Event.cleaned 0] ++ d, ?_, ?_, ?_, ?_, ?_⟩
              · simp [ht]
              · intro e he
                simp only [List.mem_cons, List.not_mem_nil, or_false] at he
                rcases he with rfl | rfl <;> rfl
              · intro e he
                rcases List.mem_append.mp he with h | h
                · simp only [List.mem_cons, List.not_mem_nil, or_false] at h
                  rcases h with rfl | rfl <;> rfl
                · exact hp e h
              · intro e he
                simp only [List.mem_cons, List.not_mem_nil, or_false] at he
                rcases he with rfl | rfl <;> rfl
              · exact ⟨f, st0.scratch, by simp⟩
          · have step : runFrom o logFile ((0, f) :: pyEnumFrom 1 fs) st0 =
                ⟨⟨some (mergeInto (st0.scratch.getD []) (o.archiveFiles 0)),
                  st0.dest,
                  writeTrunc (writeTrunc st0.logs (withSuffixPy logFile ".dryrun.log")
                    [⟨0, true⟩]) logFile [⟨0, false⟩],
                  st0.trace ++ [Event.extracted 0 f st0.scratch, Event.dryRun 0 0,
                    Event.prompted true, Event.merged 0 (o.mergeRC 0)]⟩, 1⟩ := by
              simp [runFrom, extractStep, previewStep, dryRunStep, mergeStep,
                hex, hdr, hy, hm]
            rw [step]
            refine ⟨by simp [ht, List.countP_cons, isPromptEvent], ?_⟩
            intro _
            refine ⟨[Event.extracted 0 f st0.scratch, Event.dryRun 0 0], true,
              [Event.merged 0 (o.mergeRC 0)], ?_, ?_, ?_, ?_, ?_⟩
            · simp [ht]
            · intro e he
              simp only [List.mem_cons, List.not_mem_nil, or_false] at he
              rcases he with rfl | rfl <;> rfl
            · intro e he
              simp only [List.mem_cons, List.not_mem_nil, or_false] at he
              subst he
              rfl
            · intro e he
              simp only [List.mem_cons, List.not_mem_nil, or_false] at he
              rcases he with rfl | rfl <;> rfl
            · exact ⟨f, st0.scratch, by simp⟩
        · have hy2 : o.userYes = false := by simpa using hy
          have step : runFrom o logFile ((0, f) :: pyEnumFrom 1 fs) st0 =
              ⟨⟨none, st0.dest,
                writeTrunc st0.logs (withSuffixPy logFile ".dryrun.log") [⟨0, true⟩],
                st0.trace ++ [Event.extracted 0 f st0.scratch, Event.dryRun 0 0,
                  Event.prompted false, Event.cancelLogged, Event.cleaned 0]⟩, 0⟩ := by
            simp [runFrom, extractStep, previewStep, dryRunStep, cleanupStep,
              hex, hdr, hy2]
          rw [step]
          refine ⟨by simp [ht, List.countP_cons, isPromptEvent], ?_⟩
          rintro ⟨i, rc, hmem⟩
          simp [ht] at hmem
      · have step : runFrom o logFile ((0, f) :: pyEnumFrom 1 fs) st0 =
            ⟨⟨none, st0.dest,
              writeTrunc st0.logs (withSuffixPy logFile ".dryrun.log") [⟨0, true⟩],
              st0.trace ++ [Event.extracted 0 f st0.scratch,
                Event.dryRun 0 o.dryRunRC, Event.cancelLogged, Event.cleaned 0]⟩, 0⟩ := by
          simp [runFrom, extractStep, previewStep, dryRunStep, cleanupStep, hex, hdr]
        rw [step]
        refine ⟨by simp [ht, List.countP_cons, isPromptEvent], ?_⟩
        rintro ⟨i, rc, hmem⟩
        simp [ht] at hmem
    · have hex2 : o.extractOk 0 = false := by simpa using hex
      have step : runFrom o logFile ((0, f) :: pyEnumFrom 1 fs) st0 =
          ⟨⟨some (mergeInto (st0.scratch.getD []) (o.leftoverFiles 0)), st0.dest,
            st0.logs,
            st0.trace ++ [Event.extractFailed 0 f st0.scratch]⟩, 1⟩ := by
        simp [runFrom, extractStep, hex2]
      rw [step]
      refine ⟨by simp [ht, List.countP_cons, isPromptEvent], ?_⟩
      rintro ⟨i, rc, hmem⟩
      simp [ht] at hmem

/-- Witness for C7's amended theorem at a concrete confirmed run. -/
theorem prompt_at_most_once_before_merges_witness :
    (runTakeout okOracle "takeout-merge-15.log" ["takeout-001.tgz"]
      initState).state.trace.countP isPromptEvent ≤ 1 ∧
    ((∃ i rc, Event.merged i rc ∈ (runTakeout okOracle "takeout-merge-15.log"
        ["takeout-001.tgz"] initState).state.trace) →
      ∃ pre b post, (runTakeout okOracle "takeout-merge-15.log" ["takeout-001.tgz"]
          initState).state.trace = pre ++ Event.prompted b :: post ∧
        (∀ e ∈ pre, isPromptEvent e = false) ∧
        (∀ e ∈ post, isPromptEvent e = false) ∧
        (∀ e ∈ pre, isMergeEvent e = false) ∧
        (∃ fn preS, Event.extracted 0 fn preS ∈ pre)) :=
  prompt_at_most_once_before_merges okOracle "takeout-merge-15.log"
    ["takeout-001.tgz"] initState rfl

/-- Starting from a state whose scratch directory is absent, every
extraction the loop performs — in any cycle, under any outcomes — sees
an absent scratch directory: every extraction event it appends records
a `pre`-state of `none`. -/
theorem runFrom_new_extracts_pre_none (o : Oracle) (logFile : String) :
    ∀ (l : List (Nat × String)) (st : RunState), st.scratch = none →
      ∃ d, (runFrom o logFile l st).state.trace = st.trace ++ d ∧
        ∀ i b pre, (Event.extracted i b pre ∈ d ∨ Event.extractFailed i b pre ∈ d) →
          pre = none := by
  intro l
  induction l with
  | nil =>
    intro st _
    exact ⟨[], by simp [runFrom], by simp⟩
  | cons p t ih =>
    intro st hs
    obtain ⟨i, a⟩ := p
    by_cases hie : o.extractOk i = true
    · by_cases hi : i = 0
      · subst hi
        by_cases hdr : o.dryRunRC = 0
        · by_cases hy : o.userYes = true
          · by_cases him : o.mergeRC 0 = 0
            · have step : runFrom o logFile ((0, a) :: t) st =
                  runFrom o logFile t
                    ⟨none, applyRsync (mergeInto [] (o.archiveFiles 0)) st.dest,
                     writeTrunc (writeTrunc st.logs (withSuffixPy logFile ".dryrun.log")
                       [⟨0, true⟩]) logFile [⟨0, false⟩],
                     st.trace ++ [Event.extracted 0 a none, Event.dryRun 0 o.dryRunRC,
                       Event.prompted true, Event.merged 0 0, Event.cleaned 0]⟩ := by
                simp [runFrom, extractStep, previewStep, dryRunStep, mergeStep,
                  cleanupStep, hie, hdr, hy, him, hs]
              obtain ⟨d, hd, hp⟩ := ih
                ⟨none, applyRsync (mergeInto [] (o.archiveFiles 0)) st.dest,
                 writeTrunc (writeTrunc st.logs (withSuffixPy logFile ".dryrun.log")
                   [⟨0, true⟩]) logFile [⟨0, false⟩],
                 st.trace ++ [Event.extracted 0 a none, Event.dryRun 0 o.dryRunRC,
                   Event.prompted true, Event.merged 0 0, Event.cleaned 0]⟩ rfl
              refine ⟨[Event.extracted 0 a none, Event.dryRun 0 o.dryRunRC,
                Event.prompted true, Event.merged 0 0, Event.cleaned 0] ++ d,
                by rw [step, hd]; simp, ?_⟩
              intro i b pre h
              rcases h with h | h
              · rcases List.mem_append.mp h with h1 | h1
                · simp only [List.mem_cons, List.not_mem_nil, or_false] at h1
                  rcases h1 with h2 | h2 | h2 | h2 | h2 <;> injection h2
                · exact hp i b pre (Or.inl h1)
              · rcases List.mem_append.mp h with h1 | h1
                · simp only [List.mem_cons, List.not_mem_nil, or_false] at h1
                  rcases h1 with h2 | h2 | h2 | h2 | h2 <;> simp at h2
                · exact hp i b pre (Or.inr h1)
            · refine ⟨[Event.extracted 0 a none, Event.dryRun 0 o.dryRunRC,
                Event.prompted true, Event.merged 0 (o.mergeRC 0)], ?_, ?_⟩
              · simp [runFrom, extractStep, previewStep, dryRunStep, mergeStep,
                  hie, hdr, hy, him, hs]
              · intro i b pre h
                rcases h with h | h <;>
                  simp only [List.mem_cons, List.not_mem_nil, or_false] at h
                · rcases h with h2 | h2 | h2 | h2 <;> injection h2
                · rcases h with h2 | h2 | h2 | h2 <;> simp at h2
          · have hy2 : o.userYes = false := by simpa using hy
            refine ⟨[Event.extracted 0 a none, Event.dryRun 0 o.dryRunRC,
              Event.prompted false, Event.cancelLogged, Event.cleaned 0], ?_, ?_⟩
            · simp [runFrom, extractStep, previewStep, dryRunStep, cleanupStep,
                hie, hdr, hy2, hs]
            · intro i b pre h
              rcases h with h | h <;>
                simp only [List.mem_cons, List.not_mem_nil, or_false] at h
              · rcases h with h2 | h2 | h2 | h2 | h2 <;> injection h2
              · rcases h with h2 | h2 | h2 | h2 | h2 <;> simp at h2
        · refine ⟨[Event.extracted 0 a none, Event.dryRun 0 o.dryRunRC,
            Event.cancelLogged, Event.cleaned 0], ?_, ?_⟩
          · simp [runFrom, extractStep, previewStep, dryRunStep, cleanupStep,
              hie, hdr, hs]
          · intro i b pre h
            rcases h with h | h <;>
              simp only [List.mem_cons, List.not_mem_nil, or_false] at h
            · rcases h with h2 | h2 | h2 | h2 <;> injection h2
            · rcases h with h2 | h2 | h2 | h2 <;> simp at h2
      · by_cases him : o.mergeRC i = 0
        · have step : runFrom o logFile ((i, a) :: t) st =
              runFrom o logFile t
                ⟨none, applyRsync (mergeInto [] (o.archiveFiles i)) st.dest,
                 writeTrunc st.logs logFile [⟨i, false⟩],
                 st.trace ++ [Event.extracted i a none, Event.merged i 0,
                   Event.cleaned i]⟩ := by
            simp [runFrom, extractStep, mergeStep, cleanupStep, hie, hi, him, hs]
          obtain ⟨d, hd, hp⟩ := ih
            ⟨none, applyRsync (mergeInto [] (o.archiveFiles i)) st.dest,
             writeTrunc st.logs logFile [⟨i, false⟩],
             st.trace ++ [Event.extracted i a none, Event.merged i 0,
               Event.cleaned i]⟩ rfl
          refine ⟨[Event.extracted i a none, Event.merged i 0, Event.cleaned i] ++ d,
            by rw [step, hd]; simp, ?_⟩
          intro j b pre h
          rcases h with h | h
          · rcases List.mem_append.mp h with h1 | h1
            · simp only [List.mem_cons, List.not_mem_nil, or_false] at h1
              rcases h1 with h2 | h2 | h2 <;> injection h2
            · exact hp j b pre (Or.inl h1)
          · rcases List.mem_append.mp h with h1 | h1
            · simp only [List.mem_cons, List.not_mem_nil, or_false] at h1
              rcases h1 with h2 | h2 | h2 <;> simp at h2
            · exact hp j b pre (Or.inr h1)
        · refine ⟨[Event.extracted i a none, Event.merged i (o.mergeRC i)], ?_, ?_⟩
          · simp [runFrom, extractStep, mergeStep, hie, hi, him, hs]
          · intro j b pre h
            rcases h with h | h <;>
              simp only [List.mem_cons, List.not_mem_nil, or_false] at h
            · rcases h with h2 | h2 <;> injection h2
            · rcases h with h2 | h2 <;> simp at h2
    · have hie2 : o.extractOk i = false := by simpa using hie
      refine ⟨[Event.extractFailed i a none], ?_, ?_⟩
      · simp [runFrom, extractStep, hie2, hs]
      · intro j b pre h
        rcases h with h | h
        · simp at h
        · simp only [List.mem_cons, List.not_mem_nil, or_false] at h
          injection h

/-- Claim C9, counterexample: with a pre-existing non-empty scratch
directory, the first cycle's extraction starts with the scratch
directory existing and non-empty — the script never clears it
(`mkdir(parents=True, exist_ok=True)` keeps the leftover contents). -/
theorem scratch_not_cleared_before_first_cycle_cex :
    Event.extracted 0 "takeout-001.tgz" (some [⟨"junk.txt", 3, 9⟩]) ∈
      (runTakeout okOracle "takeout-merge-16.log" ["takeout-001.tgz"]
        ⟨some [⟨"junk.txt", 3, 9⟩], [], [], []⟩).state.trace ∧
    (some [⟨"junk.txt", 3, 9⟩] : Scratch) ≠ none ∧
    (some [⟨"junk.txt", 3, 9⟩] : Scratch) ≠ some [] := by
  decide

/-- Claim C9 (amended): the scratch directory is absent immediately
after every completed cleanup, and absent immediately before every
extraction except possibly the first: the first cycle extracts into
whatever already existed at the scratch path — the script never clears
a pre-existing scratch directory — while every later cycle starts with
the scratch directory absent. -/
theorem scratch_absent_after_cleanup_and_between_cycles (o : Oracle) (logFile : String)
    (entries : List String) (st0 : RunState) (ht : st0.trace = []) :
    (∀ i b pre,
      (Event.extracted i b pre ∈ (runTakeout o logFile entries st0).state.trace ∨
       Event.extractFailed i b pre ∈ (runTakeout o logFile entries st0).state.trace) →
      (i = 0 ∧ pre = st0.scratch) ∨ pre = none) ∧
    (∀ j st, (cleanupStep j st).scratch = none) := by
  refine ⟨?_, ?_⟩
  · cases hfe : findTgzFiles entries with
    | nil =>
      have hrun : runTakeout o logFile entries st0 = ⟨st0, 1⟩ := by
        simp [runTakeout, hfe]
      rw [hrun]
      intro i b pre h
      rcases h with h | h <;> simp [ht] at h
    | cons f fs =>
      have hrun : runTakeout o logFile entries st0 =
          runFrom o logFile ((0, f) :: pyEnumFrom 1 fs) st0 := by
        simp [runTakeout, hfe, pyEnumFrom]
      rw [hrun]
      by_cases hex : o.extractOk 0 = true
      · by_cases hdr : o.dryRunRC = 0
        · by_cases hy : o.userYes = true
          · by_cases hm : o.mergeRC 0 = 0
            · have step : runFrom o logFile ((0, f) :: pyEnumFrom 1 fs) st0 =
                  runFrom o logFile (pyEnumFrom 1 fs)
                    ⟨none,
                     applyRsync (mergeInto (st0.scratch.getD []) (o.archiveFiles 0))
                       st0.dest,
                     writeTrunc (writeTrunc st0.logs (withSuffixPy logFile ".dryrun.log")
                       [⟨0, true⟩]) logFile [⟨0, false⟩],
                     st0.trace ++ [Event.extracted 0 f st0.scratch, Event.dryRun 0 0,
                       Event.prompted true, Event.merged 0 0, Event.cleaned 0]⟩ := by
                simp [runFrom, extractStep, previewStep, dryRunStep, mergeStep,
                  cleanupStep, hex, hdr, hy, hm]
              obtain ⟨d, hd, hp⟩ := runFrom_new_extracts_pre_none o logFile
                (pyEnumFrom 1 fs)
                ⟨none,
                 applyRsync (mergeInto (st0.scratch.getD []) (o.archiveFiles 0)) st0.dest,
                 writeTrunc (writeTrunc st0.logs (withSuffixPy logFile ".dryrun.log")
                   [⟨0, true⟩]) logFile [⟨0, false⟩],
                 st0.trace ++ [Event.extracted 0 f st0.scratch, Event.dryRun 0 0,
                   Event.prompted true, Event.merged 0 0, Event.cleaned 0]⟩ rfl
              rw [step, hd]
              intro i b pre h
              rcases h with h | h
              · simp only [ht, List.nil_append, List.append_assoc, List.mem_append,
                  List.mem_cons, List.not_mem_nil, or_false] at h
                rcases h with (h2 | h2 | h2 | h2 | h2) | h2
                · simp only [Event.extracted.injEq] at h2
                  exact Or.inl ⟨h2.1, h2.2.2⟩
                · simp at h2
                · simp at h2
                · simp at h2
                · simp at h2
                · exact Or.inr (hp i b pre (Or.inl h2))
              · simp only [ht, List.nil_append, List.append_assoc, List.mem_append,
                  List.mem_cons, List.not_mem_nil, or_false] at h
                rcases h with (h2 | h2 | h2 | h2 | h2) | h2
                · simp at h2
                · simp at h2
                · simp at h2
                · simp at h2
                · simp at h2
                · exact Or.inr (hp i b pre (Or.inr h2))
            · have step : runFrom o logFile ((0, f) :: pyEnumFrom 1 fs) st0 =
                  ⟨⟨some (mergeInto (st0.scratch.getD []) (o.archiveFiles 0)), st0.dest,
                    writeTrunc (writeTrunc st0.logs (withSuffixPy logFile ".dryrun.log")
                      [⟨0, true⟩]) logFile [⟨0, false⟩],
                    st0.trace ++ [Event.extracted 0 f st0.scratch, Event.dryRun 0 0,
                      Event.prompted true, Event.merged 0 (o.mergeRC 0)]⟩, 1⟩ := by
                simp [runFrom, extractStep, previewStep, dryRunStep, mergeStep,
                  hex, hdr, hy, hm]
              rw [step]
              intro i b pre h
              rcases h with h | h <;>
                simp only [ht, List.nil_append, List.mem_cons, List.not_mem_nil,
                  or_false] at h
              · rcases h with h2 | h2 | h2 | h2
                · simp only [Event.extracted.injEq] at h2
                  exact Or.inl ⟨h2.1, h2.2.2⟩
                · simp at h2
                · simp at h2
                · simp at h2
              · rcases h with h2 | h2 | h2 | h2 <;> simp at h2
          · have hy2 : o.userYes = false := by simpa using hy
            have step : runFrom o logFile ((0, f) :: pyEnumFrom 1 fs) st0 =
                ⟨⟨none, st0.dest,
                  writeTrunc st0.logs (withSuffixPy logFile ".dryrun.log") [⟨0, true⟩],
                  st0.trace ++ [Event.extracted 0 f st0.scratch, Event.dryRun 0 0,
                    Event.prompted false, Event.cancelLogged, Event.cleaned 0]⟩, 0⟩ := by
              simp [runFrom, extractStep, previewStep, dryRunStep, cleanupStep,
                hex, hdr, hy2]
            rw [step]
            intro i b pre h
            rcases h with h | h <;>
              simp only [ht, List.nil_append, List.mem_cons, List.not_mem_nil,
                or_false] at h
            · rcases h with h2 | h2 | h2 | h2 | h2
              · simp only [Event.extracted.injEq] at h2
                exact Or.inl ⟨h2.1, h2.2.2⟩
              · simp at h2
              · simp at h2
              · simp at h2
              · simp at h2
            · rcases h with h2 | h2 | h2 | h2 | h2 <;> simp at h2
        · have step : runFrom o logFile ((0, f) :: pyEnumFrom 1 fs) st0 =
              ⟨⟨none, st0.dest,
                writeTrunc st0.logs (withSuffixPy logFile ".dryrun.log") [⟨0, true⟩],
                st0.trace ++ [Event.extracted 0 f st0.scratch,
                  Event.dryRun 0 o.dryRunRC, Event.cancelLogged, Event.cleaned 0]⟩, 0⟩ := by
            simp [runFrom, extractStep, previewStep, dryRunStep, cleanupStep, hex, hdr]
          rw [step]
          intro i b pre h
          rcases h with h | h <;>
            simp only [ht, List.nil_append, List.mem_cons, List.not_mem_nil,
              or_false] at h
          · rcases h with h2 | h2 | h2 | h2
            · simp only [Event.extracted.injEq] at h2
              exact Or.inl ⟨h2.1, h2.2.2⟩
            · simp at h2
            · simp at h2
            · simp at h2
          · rcases h with h2 | h2 | h2 | h2 <;> simp at h2
      · have hex2 : o.extractOk 0 = false := by simpa using hex
        have step : runFrom o logFile ((0, f) :: pyEnumFrom 1 fs) st0 =
            ⟨⟨some (mergeInto (st0.scratch.getD []) (o.leftoverFiles 0)), st0.dest,
              st0.logs, st0.trace ++ [Event.extractFailed 0 f st0.scratch]⟩, 1⟩ := by
          simp [runFrom, extractStep, hex2]
        rw [step]
        intro i b pre h
        rcases h with h | h <;>
          simp only [ht, List.nil_append, List.mem_cons, List.not_mem_nil,
            or_false] at h
        · simp at h
        · simp only [Event.extractFailed.injEq] at h
          exact Or.inl ⟨h.1, h.2.2⟩
  · intro j st
    cases h : st.scratch with
    | none => simp [cleanupStep, h]
    | some d => simp [cleanupStep, h]

/-- Witness for C9's amended theorem at a concrete run that starts with
a pre-existing scratch directory. -/
theorem scratch_absent_after_cleanup_and_between_cycles_witness :
    (∀ i b pre,
      (Event.extracted i b pre ∈ (runTakeout okOracle "takeout-merge-17.log"
          ["takeout-001.tgz", "takeout-002.tgz"]
          ⟨some [⟨"junk.txt", 3, 9⟩], [], [], []⟩).state.trace ∨
       Event.extractFailed i b pre ∈ (runTakeout okOracle "takeout-merge-17.log"
          ["takeout-001.tgz", "takeout-002.tgz"]
          ⟨some [⟨"junk.txt", 3, 9⟩], [], [], []⟩).state.trace) →
      (i = 0 ∧ pre = (⟨some [⟨"junk.txt", 3, 9⟩], [], [], []⟩ : RunState).scratch) ∨
        pre = none) ∧
    (∀ j st, (cleanupStep j st).scratch = none) :=
  scratch_absent_after_cleanup_and_between_cycles okOracle "takeout-merge-17.log"
    ["takeout-001.tgz", "takeout-002.tgz"] ⟨some [⟨"junk.txt", 3, 9⟩], [], [], []⟩ rfl
